import Mathlib

/-! Verification model of `Cthulhu/src/MemoryPoolIPCHybrid.cpp` (the hybrid
cross-process memory pool of the labgraph repository).

Shallow embedding conventions:
* boost interprocess maps (`pool_->buffers`, `pool_->sizes`, the local caches
  `ptrs_`, `handlesGPU_`, `gpuHandleProcMap_`, `gpuMappedBuffers_`, and
  `activatedStreams_`) are association lists;
* segment offset handles are natural numbers; within one process the raw
  address and the offset handle are in bijection, so the model identifies the
  two and `ptrs_` (keyed by raw address in C++) is a list of offsets;
* the cross-process reference count of a `SharedPtrIPC` wrapper is a single
  per-offset counter; copying a wrapper increments it, destroying a copy
  decrements it, and the drop to zero invokes the reclaimer;
* fresh segment allocation is modelled by a counter `nextOff` handing out
  previously unused offsets.
-/

namespace Cthulhu

/-- Association-list lookup: the value of the first entry with the given key. -/
def lookupKey {α β : Type} [DecidableEq α] (k : α) : List (α × β) → Option β
  | [] => none
  | p :: rest => if p.1 = k then some p.2 else lookupKey k rest

/-- Association-list update: replace the value of the first entry with the given
key, or append a new entry when the key is absent. -/
def setKey {α β : Type} [DecidableEq α] (k : α) (v : β) : List (α × β) → List (α × β)
  | [] => [(k, v)]
  | p :: rest => if p.1 = k then (k, v) :: rest else p :: setKey k v rest

/-- Association-list erase: remove the first entry with the given key. -/
def eraseKey {α β : Type} [DecidableEq α] (k : α) : List (α × β) → List (α × β)
  | [] => []
  | p :: rest => if p.1 = k then rest else p :: eraseKey k rest

/-- Lookup with a default value. -/
def getD {α β : Type} [DecidableEq α] (k : α) (d : β) (m : List (α × β)) : β :=
  (lookupKey k m).getD d

/-- Insert an entry with a default value when the key is absent; this models the
map `emplace` performed after a failed `find` in the C++ source. -/
def ensureKey {α β : Type} [DecidableEq α] (k : α) (v : β) (m : List (α × β)) :
    List (α × β) :=
  if (lookupKey k m).isSome then m else m ++ [(k, v)]

/-- Remove the first occurrence of an element from a list. -/
def removeOne (a : Nat) : List Nat → List Nat
  | [] => []
  | b :: rest => if b = a then rest else b :: removeOne a rest

/-- State of the hybrid pool visible to the CPU-side operations of
`MemoryPoolIPCHybrid`: the shared `MemoryPoolIPC` object (`buffers`, `sizes`,
`allocated`), the segment allocator (`nextOff`), the cross-process reference
counts of the shared wrappers (`refcount`), the local handle cache `ptrs_`
(a set of offsets, since address and offset are identified), the stream
activation table, the auditor's `invalid` flag, and a counter of buffers handed
out by the process-local fallback `MemoryPool`. -/
structure Hybrid where
  shmSize : Nat
  fracNum : Nat
  fracDen : Nat
  buffers : List (Nat × List Nat)
  sizes : List (Nat × Nat)
  allocated : Nat
  nextOff : Nat
  refcount : List (Nat × Nat)
  ptrs : List Nat
  activatedStreams : List (String × Bool)
  auditorInvalid : Bool
  localCount : Nat
deriving DecidableEq

/-- Modelled from the spec: `MAX_SHM_USAGE_FRAC` is a compile-time fraction
declared in the pool header (which is not part of this source file); the spec
describes it as "a compile-time fraction (e.g. 0.9) reserving headroom for
bookkeeping".  The model keeps it as the exact fraction `fracNum / fracDen`,
and the source's budget check `allocated + nrBytes < shmSize_ *
MAX_SHM_USAGE_FRAC` becomes the cross-multiplied exact comparison
`(allocated + n) * fracDen < shmSize * fracNum`. -/
def underBudget (s : Hybrid) (n : Nat) : Prop :=
  (s.allocated + n) * s.fracDen < s.shmSize * s.fracNum

instance (s : Hybrid) (n : Nat) : Decidable (underBudget s n) := by
  unfold underBudget
  infer_instance

/-- Copying a `SharedPtrIPC` referencing `off` (boost shared-pointer semantics):
the cross-process reference count of the allocation grows by one. -/
def incSharedRef (off : Nat) (s : Hybrid) : Hybrid :=
  { s with refcount := setKey off (getD off 0 s.refcount + 1) s.refcount }

/-- Modelled from the spec: `ReclaimerIPC` (declared in the pool header, not in
this source file) — when the last shared reference to an offset drops, it
relocks `buffers_mutex` and "pushes the offset back into `buffers[n]` — never
decrements `allocated` and never frees the segment memory".  The size `n` is
the one recorded for the offset in `sizes`. -/
def reclaim (off : Nat) (s : Hybrid) : Hybrid :=
  match lookupKey off s.sizes with
  | some n => { s with buffers := setKey n (getD n [] s.buffers ++ [off]) s.buffers }
  | none => s

/-- Destroying one `SharedPtrIPC` copy referencing `off` (boost shared-pointer
semantics): decrement the reference count; when it drops to zero run the
reclaimer. -/
def dropSharedRef (off : Nat) (s : Hybrid) : Hybrid :=
  if getD off 0 s.refcount = 0 then s
  else if getD off 0 s.refcount = 1 then
    reclaim off { s with refcount := setKey off 0 s.refcount }
  else { s with refcount := setKey off (getD off 0 s.refcount - 1) s.refcount }

/-- The `ptrs_.emplace(ptr, buffer)` step of `requestSHM`: like map `emplace`,
it inserts only when the key is absent; the inserted copy holds one shared
reference. -/
def emplacePtr (off : Nat) (s : Hybrid) : Hybrid :=
  if off ∈ s.ptrs then s else incSharedRef off { s with ptrs := off :: s.ptrs }

/-- Tail of `requestSHM` (source lines 331-343): construct the `SharedPtrIPC`
in the segment (one reference), `ptrs_.emplace` a copy of it, then
`shm_->destroy_ptr(&buffer)` the construction-site wrapper (dropping its
reference), and return the local pointer. -/
def finishRequest (off : Nat) (s : Hybrid) : Option Nat × Hybrid :=
  (some off, dropSharedRef off (emplacePtr off (incSharedRef off s)))

/-- `MemoryPoolIPCHybrid::requestSHM` (source lines 292-344).  Under
`buffers_mutex` look up `buffers[n]` (emplacing an empty list when absent) and
pop the back entry when the free-list is non-empty; otherwise, under
`sizes_mutex`, allocate a fresh anonymous buffer when
`allocated + n < shmSize_ * MAX_SHM_USAGE_FRAC`, recording the offset in
`sizes` and charging `allocated`, and return an empty handle when the budget
check fails.  On success the shared wrapper is constructed and cached. -/
def requestSHM (n : Nat) (s : Hybrid) : Option Nat × Hybrid :=
  match (getD n [] s.buffers).getLast? with
  | some off =>
      finishRequest off
        { s with buffers := setKey n (getD n [] s.buffers).dropLast s.buffers }
  | none =>
      if underBudget s n then
        finishRequest s.nextOff
          { s with buffers := ensureKey n [] s.buffers,
                   nextOff := s.nextOff + 1,
                   allocated := s.allocated + n,
                   sizes := (s.nextOff, n) :: s.sizes }
      else (none, { s with buffers := ensureKey n [] s.buffers })

/-- `MemoryPoolIPCHybrid::destroyLocal(uint8_t*)` (source lines 373-376):
erase the `ptrs_` entry for the raw address.  When an entry is present its
stored wrapper copy is destroyed, dropping one shared reference (and running
the reclaimer when it was the last); erasing an absent key does nothing. -/
def destroyLocal (off : Nat) (s : Hybrid) : Hybrid :=
  if off ∈ s.ptrs then dropSharedRef off { s with ptrs := removeOne off s.ptrs } else s

/-- `MemoryPoolIPCHybrid::convert(const CpuBuffer&)` (source lines 350-356):
look up `ptrs_` by raw address; return a copy of the cached wrapper (one more
shared reference) when present and an empty wrapper otherwise. -/
def convert (off : Nat) (s : Hybrid) : Option Nat × Hybrid :=
  if off ∈ s.ptrs then (some off, incSharedRef off s) else (none, s)

/-- `MemoryPoolIPCHybrid::createLocal(const SharedPtrIPC&)` (source lines
366-371): `ptrs_[pointer] = buffer` then return a `CpuBuffer` whose deleter is
`destroyLocal`.  When the key is already present the assignment replaces the
stored copy by a copy of the same wrapper (no net reference change); when it is
absent a new entry holding one reference is created. -/
def createLocal (off : Nat) (s : Hybrid) : Hybrid :=
  if off ∈ s.ptrs then s else incSharedRef off { s with ptrs := off :: s.ptrs }

/-- `MemoryPoolIPCHybrid::getBufferFromSharedPoolDirect` (source lines
443-445): `convert(requestSHM(nrBytes))`.  The `CpuBuffer` temporary returned
by `requestSHM` is destroyed at the end of the full expression, after `convert`
has copied the wrapper, so its deleter `destroyLocal` runs before the call
returns. -/
def getBufferFromSharedPoolDirect (n : Nat) (s : Hybrid) : Option Nat × Hybrid :=
  match requestSHM n s with
  | (none, s1) => (none, s1)
  | (some off, s1) => ((convert off s1).1, destroyLocal off (convert off s1).2)

/-- A buffer handed to a caller: either a shared-pool buffer (identified by its
segment offset) or a buffer from the process-local fallback `MemoryPool`
(identified by a local counter; its address is never a segment address). -/
inductive Buf where
  | shared (off : Nat)
  | localBuf (k : Nat)
deriving DecidableEq

/-- The process-local fallback `memoryPool_->request(nrBytes)`: a malloc-style
wrapper outside the shared scope, always returning a fresh local buffer. -/
def localRequest (s : Hybrid) : Buf × Hybrid :=
  (Buf.localBuf s.localCount, { s with localCount := s.localCount + 1 })

/-- `MemoryPoolIPCHybrid::getBufferFromPool` (source lines 164-178): when the
stream is absent from `activatedStreams_`, or present and marked active, try
`requestSHM`; if it fails fall back to the local allocator.  Otherwise allocate
locally. -/
def getBufferFromPool (id : String) (n : Nat) (s : Hybrid) : Buf × Hybrid :=
  if lookupKey id s.activatedStreams = none ∨ lookupKey id s.activatedStreams = some true then
    match requestSHM n s with
    | (some off, s') => (Buf.shared off, s')
    | (none, s') => localRequest s'
  else localRequest s

/-- `MemoryPoolIPCHybrid::activateStream` (source lines 346-348):
`activatedStreams_[streamID] = active`. -/
def activateStream (id : String) (b : Bool) (s : Hybrid) : Hybrid :=
  { s with activatedStreams := setKey id b s.activatedStreams }

/-- `convert` applied to a caller-held buffer, lookup part only: a local
fallback buffer's address is never in `ptrs_`, so its conversion is empty. -/
def convertBuf : Buf → Hybrid → Option Nat
  | Buf.shared off, s => (convert off s).1
  | Buf.localBuf _, _ => none

/-- `MemoryPoolIPCHybrid::invalidate` (source lines 99-101): set the auditor's
sticky `invalid` flag. -/
def invalidate (s : Hybrid) : Hybrid :=
  { s with auditorInvalid := true }

/-- `MemoryPoolIPCHybrid::isValid` (source lines 85-87). -/
def isValid (s : Hybrid) : Bool :=
  ! s.auditorInvalid

/-- A freshly attached pool over an empty segment: all shared maps empty,
nothing allocated, no local handles, no activated streams, valid auditor. -/
def initState (size num den : Nat) : Hybrid :=
  { shmSize := size
    fracNum := num
    fracDen := den
    buffers := []
    sizes := []
    allocated := 0
    nextOff := 0
    refcount := []
    ptrs := []
    activatedStreams := []
    auditorInvalid := false
    localCount := 0 }

/-- Well-formedness of a pool state: the local cache holds no duplicates;
free-list keys are unique; free-lists are duplicate-free and pairwise disjoint;
every free-listed offset is registered in `sizes` under its own size, carries no
shared reference, has no local handle, and was handed out by the segment
allocator; and every offset mentioned anywhere is below `nextOff`. -/
def WF (s : Hybrid) : Prop :=
  s.ptrs.Nodup ∧
  (s.buffers.map Prod.fst).Nodup ∧
  (∀ p ∈ s.buffers, p.2.Nodup) ∧
  (∀ p ∈ s.buffers, ∀ q ∈ s.buffers, p ≠ q → ∀ o ∈ p.2, o ∉ q.2) ∧
  (∀ p ∈ s.buffers, ∀ o ∈ p.2,
    lookupKey o s.sizes = some p.1 ∧ getD o 0 s.refcount = 0 ∧ o ∉ s.ptrs ∧ o < s.nextOff) ∧
  (∀ o ∈ s.ptrs, o < s.nextOff) ∧
  (∀ p ∈ s.refcount, p.1 < s.nextOff) ∧
  (∀ p ∈ s.sizes, p.1 < s.nextOff)

instance (s : Hybrid) : Decidable (WF s) := by
  unfold WF
  infer_instance

/-! Basic association-list lemmas. -/

theorem lookupKey_setKey_self {α β : Type} [DecidableEq α] (k : α) (v : β)
    (m : List (α × β)) : lookupKey k (setKey k v m) = some v := by
  induction m with
  | nil => simp [setKey, lookupKey]
  | cons p rest ih =>
      by_cases h : p.1 = k
      · simp [setKey, h, lookupKey]
      · simp [setKey, h, lookupKey, ih]

theorem lookupKey_setKey_ne {α β : Type} [DecidableEq α] {k k' : α} (v : β)
    (m : List (α × β)) (h : k' ≠ k) :
    lookupKey k' (setKey k v m) = lookupKey k' m := by
  have hkk : ¬ (k = k') := fun hh => h hh.symm
  induction m with
  | nil => simp [setKey, lookupKey, hkk]
  | cons p rest ih =>
      by_cases hp : p.1 = k
      · have hne : ¬ (p.1 = k') := by rw [hp]; exact hkk
        simp [setKey, hp, lookupKey, hkk, hne]
      · simp [setKey, hp, lookupKey, ih]

theorem getD_setKey_self {α β : Type} [DecidableEq α] (k : α) (v d : β)
    (m : List (α × β)) : getD k d (setKey k v m) = v := by
  simp [getD, lookupKey_setKey_self]

theorem getD_setKey_ne {α β : Type} [DecidableEq α] {k k' : α} (v d : β)
    (m : List (α × β)) (h : k' ≠ k) : getD k' d (setKey k v m) = getD k' d m := by
  simp [getD, lookupKey_setKey_ne v m h]

theorem mem_of_lookupKey {α β : Type} [DecidableEq α] {k : α} {v : β}
    {m : List (α × β)} (h : lookupKey k m = some v) : (k, v) ∈ m := by
  induction m with
  | nil => simp [lookupKey] at h
  | cons p rest ih =>
      by_cases hp : p.1 = k
      · simp [lookupKey, hp] at h
        have hpv : p = (k, v) := Prod.ext hp h
        rw [← hpv]
        exact List.mem_cons_self p rest
      · simp [lookupKey, hp] at h
        exact List.mem_cons_of_mem _ (ih h)

theorem lookupKey_eq_none {α β : Type} [DecidableEq α] {k : α}
    {m : List (α × β)} (h : ∀ p ∈ m, p.1 ≠ k) : lookupKey k m = none := by
  induction m with
  | nil => simp [lookupKey]
  | cons p rest ih =>
      simp [lookupKey, h p (List.mem_cons_self p rest)]
      exact ih fun q hq => h q (List.mem_cons_of_mem p hq)

theorem mem_setKey {α β : Type} [DecidableEq α] {k : α} {v : β}
    {m : List (α × β)} {p : α × β} (h : p ∈ setKey k v m) :
    p.1 = k ∨ p ∈ m := by
  induction m with
  | nil => simp [setKey] at h; simp [h]
  | cons q rest ih =>
      by_cases hq : q.1 = k
      · simp [setKey, hq] at h
        rcases h with h | h
        · left; simp [h]
        · right; exact List.mem_cons_of_mem q h
      · simp [setKey, hq] at h
        rcases h with h | h
        · right; simp [h]
        · rcases ih h with h' | h'
          · left; exact h'
          · right; exact List.mem_cons_of_mem q h'

theorem mem_ensureKey {α β : Type} [DecidableEq α] {k : α} {v : β}
    {m : List (α × β)} {p : α × β} (h : p ∈ ensureKey k v m) :
    p ∈ m ∨ p = (k, v) := by
  unfold ensureKey at h
  by_cases hk : (lookupKey k m).isSome
  · simp [hk] at h; exact Or.inl h
  · simp [hk] at h
    rcases h with h | h
    · exact Or.inl h
    · exact Or.inr (by simp [h])

theorem lookupKey_append_single {α β : Type} [DecidableEq α] (k k' : α) (v : β)
    (m : List (α × β)) :
    lookupKey k' (m ++ [(k, v)]) = lookupKey k' m ∨
      lookupKey k' (m ++ [(k, v)]) = some v := by
  induction m with
  | nil => by_cases h : k = k' <;> simp [lookupKey, h]
  | cons p rest ih =>
      by_cases hp : p.1 = k' <;> simp [lookupKey, hp, ih]

theorem lookupKey_append_single_ne {α β : Type} [DecidableEq α] {k m : α} (v : β)
    (l : List (α × β)) (h : m ≠ k) :
    lookupKey m (l ++ [(k, v)]) = lookupKey m l := by
  have hk : ¬ (k = m) := fun hh => h hh.symm
  induction l with
  | nil => simp [lookupKey, hk]
  | cons p rest ih =>
      by_cases hp : p.1 = m <;> simp [lookupKey, hp, ih]

theorem lookupKey_ensureKey {α β : Type} [DecidableEq α] (k k' : α) (v : β)
    (m : List (α × β)) :
    lookupKey k' (ensureKey k v m) = lookupKey k' m ∨
      lookupKey k' (ensureKey k v m) = some v := by
  unfold ensureKey
  by_cases hk : (lookupKey k m).isSome
  · simp [hk]
  · simp [hk]
    exact lookupKey_append_single k k' v m

theorem lookupKey_eraseKey_self {α β : Type} [DecidableEq α] (k : α)
    (m : List (α × β)) (h : (m.map Prod.fst).Nodup) :
    lookupKey k (eraseKey k m) = none := by
  induction m with
  | nil => simp [eraseKey, lookupKey]
  | cons p rest ih =>
      rw [List.map_cons, List.nodup_cons] at h
      by_cases hp : p.1 = k
      · simp [eraseKey, hp]
        exact lookupKey_eq_none fun q hq hqk => h.1 (by
          rw [hp, ← hqk]
          exact List.mem_map_of_mem Prod.fst hq)
      · simp [eraseKey, hp, lookupKey, ih h.2]

theorem lookupKey_eraseKey_ne {α β : Type} [DecidableEq α] {k k' : α}
    (m : List (α × β)) (h : k' ≠ k) :
    lookupKey k' (eraseKey k m) = lookupKey k' m := by
  induction m with
  | nil => simp [eraseKey]
  | cons p rest ih =>
      by_cases hp : p.1 = k
      · have hne : ¬ (p.1 = k') := by
          rw [hp]
          exact fun hh => h hh.symm
        have hkk : ¬ (k = k') := fun hh => h hh.symm
        simp [eraseKey, hp, lookupKey, hne, hkk]
      · simp [eraseKey, hp, lookupKey, ih]

theorem mem_removeOne {a b : Nat} : ∀ {l : List Nat}, b ∈ removeOne a l → b ∈ l := by
  intro l
  induction l with
  | nil => simp [removeOne]
  | cons c rest ih =>
      by_cases hc : c = a
      · simp [removeOne, hc]
        exact fun h => Or.inr h
      · simp [removeOne, hc]
        rintro (h | h)
        · exact Or.inl h
        · exact Or.inr (ih h)

theorem removeOne_cons_self (a : Nat) (l : List Nat) :
    removeOne a (a :: l) = l := by
  simp [removeOne]

theorem not_mem_removeOne {a : Nat} {l : List Nat} (h : l.Nodup) :
    a ∉ removeOne a l := by
  induction l with
  | nil => simp [removeOne]
  | cons c rest ih =>
      simp at h
      by_cases hc : c = a
      · subst hc
        simp [removeOne]
        exact h.1
      · simp [removeOne, hc, Ne.symm hc]
        exact ih h.2

/-! Closed forms of the `requestSHM` paths under the natural preconditions
(the popped or fresh offset carries no shared reference and no local handle). -/

theorem finishRequest_eq (off : Nat) (s : Hybrid) (hptr : off ∉ s.ptrs)
    (hrc : getD off 0 s.refcount = 0) :
    finishRequest off s =
      (some off,
       { s with ptrs := off :: s.ptrs,
                refcount := setKey off 1 (setKey off 2 (setKey off 1 s.refcount)) }) := by
  unfold finishRequest emplacePtr incSharedRef dropSharedRef
  simp [hptr, hrc, getD_setKey_self]

theorem requestSHM_hit (n off : Nat) (s : Hybrid)
    (hl : (getD n [] s.buffers).getLast? = some off)
    (hptr : off ∉ s.ptrs) (hrc : getD off 0 s.refcount = 0) :
    requestSHM n s =
      (some off,
       { s with buffers := setKey n (getD n [] s.buffers).dropLast s.buffers,
                ptrs := off :: s.ptrs,
                refcount := setKey off 1 (setKey off 2 (setKey off 1 s.refcount)) }) := by
  have h := finishRequest_eq off
    { s with buffers := setKey n (getD n [] s.buffers).dropLast s.buffers } hptr hrc
  simp only [requestSHM, hl]
  exact h

theorem requestSHM_fresh (n : Nat) (s : Hybrid)
    (hl : (getD n [] s.buffers).getLast? = none)
    (hb : underBudget s n)
    (hptr : s.nextOff ∉ s.ptrs) (hrc : getD s.nextOff 0 s.refcount = 0) :
    requestSHM n s =
      (some s.nextOff,
       { s with buffers := ensureKey n [] s.buffers,
                nextOff := s.nextOff + 1,
                allocated := s.allocated + n,
                sizes := (s.nextOff, n) :: s.sizes,
                ptrs := s.nextOff :: s.ptrs,
                refcount :=
                  setKey s.nextOff 1 (setKey s.nextOff 2 (setKey s.nextOff 1 s.refcount)) }) := by
  have h := finishRequest_eq s.nextOff
    { s with buffers := ensureKey n [] s.buffers,
             nextOff := s.nextOff + 1,
             allocated := s.allocated + n,
             sizes := (s.nextOff, n) :: s.sizes } hptr hrc
  simp only [requestSHM, hl, if_pos hb]
  exact h

theorem requestSHM_reject (n : Nat) (s : Hybrid)
    (hl : (getD n [] s.buffers).getLast? = none)
    (hb : ¬ underBudget s n) :
    requestSHM n s = (none, { s with buffers := ensureKey n [] s.buffers }) := by
  simp only [requestSHM, hl, if_neg hb]

/-- Whatever the cache and reference-count situation, the tail of `requestSHM`
returns the chosen offset and never touches `allocated`, `nextOff` or
`sizes`. -/
theorem finishRequest_frame (off : Nat) (t : Hybrid) :
    (finishRequest off t).1 = some off ∧
    (finishRequest off t).2.allocated = t.allocated ∧
    (finishRequest off t).2.nextOff = t.nextOff ∧
    (finishRequest off t).2.sizes = t.sizes := by
  unfold finishRequest dropSharedRef emplacePtr incSharedRef reclaim
  refine ⟨rfl, ?_, ?_, ?_⟩ <;> (repeat' split) <;> rfl

theorem not_mem_dropLast_of_getLast? {l : List Nat} {a : Nat}
    (hl : l.getLast? = some a) (hnd : l.Nodup) : a ∉ l.dropLast := by
  have hsplit : l.dropLast ++ [a] = l :=
    List.dropLast_append_getLast? a (Option.mem_def.mpr hl)
  rw [← hsplit] at hnd
  have hd := List.nodup_append.mp hnd
  intro hmem
  exact hd.2.2 hmem (List.mem_singleton_self a)

/-- Postconditions of a successful `requestSHM` from a well-formed state: the
returned offset had no local handle before; afterwards it has exactly one local
handle, exactly one shared reference (held by the `ptrs_` entry), its size is
registered in `sizes`, and it sits on no free-list. -/
theorem requestSHM_success_spec (n off : Nat) (s s1 : Hybrid) (hwf : WF s)
    (h : requestSHM n s = (some off, s1)) :
    off ∉ s.ptrs ∧ s1.ptrs = off :: s.ptrs ∧ getD off 0 s1.refcount = 1 ∧
    lookupKey off s1.sizes = some n ∧ (∀ m, off ∉ getD m [] s1.buffers) := by
  obtain ⟨hnp, hkeys, hnodup, hdisj, hfree, hptrs, hrcb, hszb⟩ := hwf
  cases hl : (getD n [] s.buffers).getLast? with
  | some off' =>
      have hlk : lookupKey n s.buffers = some (getD n [] s.buffers) := by
        cases hh : lookupKey n s.buffers with
        | none =>
            exfalso
            rw [getD, hh] at hl
            simp at hl
        | some l => simp [getD, hh]
      have hpair : (n, getD n [] s.buffers) ∈ s.buffers := mem_of_lookupKey hlk
      have hmem : off' ∈ getD n [] s.buffers := by
        have hsplit := List.dropLast_append_getLast? off' (Option.mem_def.mpr hl)
        rw [← hsplit]
        exact List.mem_append_right _ (List.mem_singleton_self off')
      obtain ⟨hsz', hrc', hptr', _⟩ := hfree _ hpair _ hmem
      rw [requestSHM_hit n off' s hl hptr' hrc'] at h
      injection h with h1 h2
      injection h1 with h1
      subst h1
      subst h2
      refine ⟨hptr', rfl, getD_setKey_self _ _ _ _, hsz', ?_⟩
      intro m
      by_cases hm : m = n
      · subst hm
        show off' ∉ getD m [] (setKey m (getD m [] s.buffers).dropLast s.buffers)
        rw [getD_setKey_self]
        exact not_mem_dropLast_of_getLast? hl (hnodup _ hpair)
      · show off' ∉ getD m [] (setKey n (getD n [] s.buffers).dropLast s.buffers)
        rw [getD_setKey_ne _ _ _ hm]
        cases hh : lookupKey m s.buffers with
        | none => rw [getD, hh]; simp
        | some l' =>
            have hpair' : (m, l') ∈ s.buffers := mem_of_lookupKey hh
            have hne : (n, getD n [] s.buffers) ≠ (m, l') := fun heq =>
              hm (congrArg Prod.fst heq).symm
            rw [getD, hh]
            exact fun hc => hdisj _ hpair _ hpair' hne off' hmem hc
  | none =>
      by_cases hb : underBudget s n
      · have hptr' : s.nextOff ∉ s.ptrs := fun hc => lt_irrefl _ (hptrs _ hc)
        have hrc0 : getD s.nextOff 0 s.refcount = 0 := by
          rw [getD, lookupKey_eq_none fun p hp => Nat.ne_of_lt (hrcb p hp)]
          rfl
        rw [requestSHM_fresh n s hl hb hptr' hrc0] at h
        injection h with h1 h2
        injection h1 with h1
        subst h1
        subst h2
        refine ⟨hptr', rfl, getD_setKey_self _ _ _ _, ?_, ?_⟩
        · show lookupKey s.nextOff ((s.nextOff, n) :: s.sizes) = some n
          simp [lookupKey]
        · intro m
          show s.nextOff ∉ getD m [] (ensureKey n [] s.buffers)
          rcases lookupKey_ensureKey n m ([] : List Nat) s.buffers with hcase | hcase
          · rw [getD, hcase]
            cases hh : lookupKey m s.buffers with
            | none => simp
            | some l' =>
                have hpair' := mem_of_lookupKey hh
                intro hc
                exact lt_irrefl _ ((hfree _ hpair' _ hc).2.2.2)
          · rw [getD, hcase]
            simp
      · rw [requestSHM_reject n s hl hb] at h
        injection h with h1 h2
        exact Option.noConfusion h1

/-- Closed form of `destroyLocal` when the erased entry holds the last shared
reference: the entry disappears and the reclaimer pushes the offset onto the
back of its size's free-list. -/
theorem destroyLocal_last (off n : Nat) (s : Hybrid)
    (hmem : off ∈ s.ptrs) (hrc : getD off 0 s.refcount = 1)
    (hsz : lookupKey off s.sizes = some n) :
    destroyLocal off s =
      { s with ptrs := removeOne off s.ptrs,
               refcount := setKey off 0 s.refcount,
               buffers := setKey n (getD n [] s.buffers ++ [off]) s.buffers } := by
  unfold destroyLocal dropSharedRef reclaim
  simp [hmem, hrc, hsz]

/-- Closed form of `destroyLocal` when other shared references remain: the
entry disappears and the count drops by one, without reclamation. -/
theorem destroyLocal_notlast (off : Nat) (s : Hybrid)
    (hmem : off ∈ s.ptrs) (hrc : 2 ≤ getD off 0 s.refcount) :
    destroyLocal off s =
      { s with ptrs := removeOne off s.ptrs,
               refcount := setKey off (getD off 0 s.refcount - 1) s.refcount } := by
  have h0 : ¬ (getD off 0 s.refcount = 0) := by omega
  have h1 : ¬ (getD off 0 s.refcount = 1) := by omega
  unfold destroyLocal dropSharedRef
  simp [hmem, h0, h1]

/-- A request whose free-list ends in `off` (with `off` unreferenced and
uncached) pops exactly that entry: same offset back, no change to `allocated`,
`nextOff` or `sizes`, and the free-list loses its pushed tail. -/
theorem requestSHM_pop_pushed (n off : Nat) (s2 : Hybrid) (l : List Nat)
    (hgb : getD n [] s2.buffers = l ++ [off])
    (hptr2 : off ∉ s2.ptrs) (hrc2 : getD off 0 s2.refcount = 0) :
    (requestSHM n s2).1 = some off ∧
    (requestSHM n s2).2.allocated = s2.allocated ∧
    (requestSHM n s2).2.nextOff = s2.nextOff ∧
    (requestSHM n s2).2.sizes = s2.sizes ∧
    getD n [] (requestSHM n s2).2.buffers = l := by
  have hlast : (getD n [] s2.buffers).getLast? = some off := by
    rw [hgb]
    exact List.getLast?_concat _
  rw [requestSHM_hit n off s2 hlast hptr2 hrc2]
  refine ⟨rfl, rfl, rfl, rfl, ?_⟩
  show getD n [] (setKey n (getD n [] s2.buffers).dropLast s2.buffers) = l
  rw [getD_setKey_self, hgb, List.dropLast_concat]

/-- C4: the CPU free-list is recycled LIFO.  From any well-formed state, a
successful `requestSHM n` returning offset `off`, followed by dropping the
returned buffer (its deleter is `destroyLocal off`), followed by `requestSHM n`
again, yields the same offset handle (hence the same raw address, the two being
identified in-process), pops exactly the entry the drop pushed back, and
consumes no new segment memory: `allocated`, `nextOff` and `sizes` are those of
the state after the first request. -/
theorem claim4_lifo_recycle (s : Hybrid) (n off : Nat) (s1 : Hybrid) (hwf : WF s)
    (h : requestSHM n s = (some off, s1)) :
    (requestSHM n (destroyLocal off s1)).1 = some off ∧
    (requestSHM n (destroyLocal off s1)).2.allocated = s1.allocated ∧
    (requestSHM n (destroyLocal off s1)).2.nextOff = s1.nextOff ∧
    (requestSHM n (destroyLocal off s1)).2.sizes = s1.sizes ∧
    getD n [] (requestSHM n (destroyLocal off s1)).2.buffers = getD n [] s1.buffers := by
  obtain ⟨hptr0, hptrs1, hrc1, hsz1, hfree1⟩ := requestSHM_success_spec n off s s1 hwf h
  have hmem1 : off ∈ s1.ptrs := by
    rw [hptrs1]
    exact List.mem_cons_self _ _
  rw [destroyLocal_last off n s1 hmem1 hrc1 hsz1]
  refine requestSHM_pop_pushed n off _ _ (getD_setKey_self _ _ _ _) ?_ ?_
  · show off ∉ removeOne off s1.ptrs
    rw [hptrs1, removeOne_cons_self]
    exact hptr0
  · show getD off 0 (setKey off 0 s1.refcount) = 0
    exact getD_setKey_self _ _ _ _

/-- C10: after a successful `getBufferFromSharedPoolDirect n`, the temporary
local buffer's deleter has already erased the `ptrs_` entry, so no local cache
entry remains for the returned allocation, a `convert` at that raw address is
empty, and the returned shared wrapper alone holds the allocation's single
remaining reference, keeping it off every free-list. -/
theorem claim10_direct_no_local_entry (n off : Nat) (s s' : Hybrid) (hwf : WF s)
    (h : getBufferFromSharedPoolDirect n s = (some off, s')) :
    off ∉ s'.ptrs ∧ (convert off s').1 = none ∧ getD off 0 s'.refcount = 1 ∧
    (∀ m, off ∉ getD m [] s'.buffers) := by
  cases hreq : requestSHM n s with
  | mk r s1 =>
    cases r with
    | none =>
        simp only [getBufferFromSharedPoolDirect, hreq] at h
        injection h with h1 h2
        exact Option.noConfusion h1
    | some off0 =>
        simp only [getBufferFromSharedPoolDirect, hreq] at h
        obtain ⟨hptr0, hptrs1, hrc1, hsz1, hfree1⟩ :=
          requestSHM_success_spec n off0 s s1 hwf hreq
        have hmem1 : off0 ∈ s1.ptrs := by
          rw [hptrs1]
          exact List.mem_cons_self _ _
        have hconv : convert off0 s1 = (some off0, incSharedRef off0 s1) := by
          simp [convert, hmem1]
        simp only [hconv] at h
        injection h with h1 h2
        injection h1 with h1
        subst h1
        have hmem2 : off0 ∈ (incSharedRef off0 s1).ptrs := hmem1
        have hrc2 : getD off0 0 (incSharedRef off0 s1).refcount = 2 := by
          show getD off0 0 (setKey off0 (getD off0 0 s1.refcount + 1) s1.refcount) = 2
          rw [getD_setKey_self, hrc1]
        rw [destroyLocal_notlast off0 _ hmem2 (le_of_eq hrc2.symm)] at h2
        subst h2
        have hptrsY : removeOne off0 (incSharedRef off0 s1).ptrs = s.ptrs := by
          show removeOne off0 s1.ptrs = s.ptrs
          rw [hptrs1, removeOne_cons_self]
        refine ⟨?_, ?_, ?_, ?_⟩
        · show off0 ∉ removeOne off0 (incSharedRef off0 s1).ptrs
          rw [hptrsY]
          exact hptr0
        · simp [convert, hptrsY, hptr0]
        · show getD off0 0
              (setKey off0 (getD off0 0 (incSharedRef off0 s1).refcount - 1)
                (incSharedRef off0 s1).refcount) = 1
          rw [getD_setKey_self, hrc2]
        · intro m
          show off0 ∉ getD m [] (incSharedRef off0 s1).buffers
          exact hfree1 m

/-! None of the pool operations reads the auditor's `invalid` flag: each one
commutes with setting `auditorInvalid`. -/

theorem reclaim_inv (off : Nat) (b : Bool) (s : Hybrid) :
    reclaim off { s with auditorInvalid := b } =
      { reclaim off s with auditorInvalid := b } := by
  unfold reclaim
  cases h : lookupKey off s.sizes with
  | none => simp [h]
  | some n => simp [h]

theorem dropSharedRef_inv (off : Nat) (b : Bool) (s : Hybrid) :
    dropSharedRef off { s with auditorInvalid := b } =
      { dropSharedRef off s with auditorInvalid := b } := by
  unfold dropSharedRef
  by_cases h0 : getD off 0 s.refcount = 0
  · simp [h0]
  · by_cases h1 : getD off 0 s.refcount = 1
    · simp [h0, h1]
      exact reclaim_inv off b { s with refcount := setKey off 0 s.refcount }
    · simp [h0, h1]

theorem emplacePtr_inv (off : Nat) (b : Bool) (s : Hybrid) :
    emplacePtr off { s with auditorInvalid := b } =
      { emplacePtr off s with auditorInvalid := b } := by
  unfold emplacePtr
  by_cases h : off ∈ s.ptrs
  · simp [h]
  · simp [h]
    rfl

theorem finishRequest_inv (off : Nat) (b : Bool) (s : Hybrid) :
    finishRequest off { s with auditorInvalid := b } =
      ((finishRequest off s).1,
       { (finishRequest off s).2 with auditorInvalid := b }) := by
  unfold finishRequest
  have h1 : incSharedRef off { s with auditorInvalid := b } =
      { incSharedRef off s with auditorInvalid := b } := rfl
  rw [h1, emplacePtr_inv off b (incSharedRef off s),
    dropSharedRef_inv off b (emplacePtr off (incSharedRef off s))]

theorem requestSHM_inv (n : Nat) (b : Bool) (s : Hybrid) :
    requestSHM n { s with auditorInvalid := b } =
      ((requestSHM n s).1, { (requestSHM n s).2 with auditorInvalid := b }) := by
  obtain ⟨f1, f2, f3, bufs, szs, alloc, noff, rc, ps, streams, inv, lc⟩ := s
  cases hl : (getD n [] bufs).getLast? with
  | some off =>
      simp only [requestSHM, hl]
      exact finishRequest_inv off b
        (Hybrid.mk f1 f2 f3 (setKey n (getD n [] bufs).dropLast bufs)
          szs alloc noff rc ps streams inv lc)
  | none =>
      by_cases hb : (alloc + n) * f3 < f1 * f2
      · simp only [requestSHM, hl, underBudget, if_pos hb]
        exact finishRequest_inv noff b
          (Hybrid.mk f1 f2 f3 (ensureKey n [] bufs) ((noff, n) :: szs)
            (alloc + n) (noff + 1) rc ps streams inv lc)
      · simp only [requestSHM, hl, underBudget, if_neg hb]

theorem getBufferFromPool_inv (id : String) (n : Nat) (b : Bool) (s : Hybrid) :
    getBufferFromPool id n { s with auditorInvalid := b } =
      ((getBufferFromPool id n s).1,
       { (getBufferFromPool id n s).2 with auditorInvalid := b }) := by
  cases hreq : requestSHM n s with
  | mk r1 s2 =>
      have hreqb : requestSHM n { s with auditorInvalid := b } =
          (r1, { s2 with auditorInvalid := b }) := by
        have h := requestSHM_inv n b s
        rw [hreq] at h
        exact h
      by_cases hc : lookupKey id s.activatedStreams = none ∨
          lookupKey id s.activatedStreams = some true
      · simp only [getBufferFromPool, localRequest, hreq, hreqb, if_pos hc]
        cases r1 <;> rfl
      · simp only [getBufferFromPool, localRequest, if_neg hc]

/-- C1 (amended): the auditor's `invalid` flag is never consulted by the pool's
allocation paths.  `requestSHM` and `getBufferFromPool` behave identically
whether or not the segment has been invalidated — under an invalidated segment
`requestSHM` still serves from and adds to the shared CPU pool; the local
fallback is taken only on stream gating or on a budget miss.  `invalidate`
itself only sets the sticky flag. -/
theorem claim1_invalid_flag_not_consulted (n : Nat) (id : String) (b : Bool) (s : Hybrid) :
    requestSHM n { s with auditorInvalid := b } =
      ((requestSHM n s).1, { (requestSHM n s).2 with auditorInvalid := b }) ∧
    getBufferFromPool id n { s with auditorInvalid := b } =
      ((getBufferFromPool id n s).1,
       { (getBufferFromPool id n s).2 with auditorInvalid := b }) ∧
    (invalidate s).auditorInvalid = true ∧
    invalidate s = { s with auditorInvalid := true } :=
  ⟨requestSHM_inv n b s, getBufferFromPool_inv id n b s, rfl, rfl⟩

/-- C1 counterexample: from a freshly invalidated segment, `getBufferFromPool`
still hands out a shared-pool buffer — `requestSHM` serves offset 0 from the
shared segment, charges `allocated` and records the offset in `sizes`, even
though the `invalid` flag is set.  This refutes the claim that once the invalid
flag is set all pool operations fall back to the local allocator and
`requestSHM` fails. -/
theorem claim1_counterexample :
    (invalidate (initState 100 1 1)).auditorInvalid = true ∧
    (getBufferFromPool "s" 10 (invalidate (initState 100 1 1))).1 = Buf.shared 0 ∧
    (getBufferFromPool "s" 10 (invalidate (initState 100 1 1))).2.allocated = 10 ∧
    lookupKey 0 (getBufferFromPool "s" 10 (invalidate (initState 100 1 1))).2.sizes =
      some 10 := by
  decide

/-- C3 counterexample: two aliased local handles to the same allocation break
the last-drop discipline.  `requestSHM 8` hands out offset 0 (first local
handle, `ptrs_` entry holding the single shared reference); `createLocal` on
`convert` of that live buffer yields a second local handle to the same address
(the spec-sanctioned round trip `createLocal(convert(b))`), after which the
temporary wrapper from `convert` is destroyed.  Dropping the first handle
(`destroyLocal 0`) erases the unique `ptrs_` entry and releases the shared
reference — the reclaimer already pushes offset 0 onto the free-list while the
second handle is still alive — and dropping the second, last handle is a
complete no-op: it decrements the shared count zero times, refuting the claim
that the last drop decrements exactly once and never while another local
handle is alive. -/
theorem claim3_counterexample :
    (let s4 := destroyLocal 0
        (dropSharedRef 0 (createLocal 0 (convert 0 ((requestSHM 8 (initState 100 1 1)).2)).2))
     (0 ∈ getD 8 [] s4.buffers) ∧ getD 0 0 s4.refcount = 0 ∧ destroyLocal 0 s4 = s4) := by
  decide

/-- C3 (amended): `ptrs_` holds at most one entry per raw address, and as long
as an allocation has exactly one live local handle — its `ptrs_` entry holding
the last shared reference — destroying that handle erases the entry and
releases the shared reference exactly once (the reclaimer pushes the offset
back exactly once), and a repeated destruction of the same address is a no-op.
The "never zero times, never while another handle is alive" part of the claim
fails for aliased handles (see the counterexample). -/
theorem claim3_single_handle_drop (s : Hybrid) (off n : Nat)
    (hnd : s.ptrs.Nodup) (hmem : off ∈ s.ptrs)
    (hrc : getD off 0 s.refcount = 1) (hsz : lookupKey off s.sizes = some n) :
    (destroyLocal off s).ptrs = removeOne off s.ptrs ∧
    off ∉ (destroyLocal off s).ptrs ∧
    getD off 0 (destroyLocal off s).refcount = 0 ∧
    getD n [] (destroyLocal off s).buffers = getD n [] s.buffers ++ [off] ∧
    destroyLocal off (destroyLocal off s) = destroyLocal off s := by
  rw [destroyLocal_last off n s hmem hrc hsz]
  have hnm : off ∉ removeOne off s.ptrs := not_mem_removeOne hnd
  refine ⟨rfl, hnm, ?_, ?_, ?_⟩
  · show getD off 0 (setKey off 0 s.refcount) = 0
    exact getD_setKey_self _ _ _ _
  · show getD n [] (setKey n (getD n [] s.buffers ++ [off]) s.buffers) =
      getD n [] s.buffers ++ [off]
    exact getD_setKey_self _ _ _ _
  · unfold destroyLocal
    rw [if_neg hnm]

/-- C5: dropping the last local reference to a pooled CPU buffer changes only
the free-list: the reclaimer pushes the offset onto the back of `buffers[n]`
(the buffer's recorded size) and leaves `allocated`, `sizes`, the segment
allocator, and every other free-list unchanged. -/
theorem claim5_drop_frame (s : Hybrid) (off n : Nat)
    (hmem : off ∈ s.ptrs) (hrc : getD off 0 s.refcount = 1)
    (hsz : lookupKey off s.sizes = some n) :
    (destroyLocal off s).allocated = s.allocated ∧
    (destroyLocal off s).sizes = s.sizes ∧
    (destroyLocal off s).nextOff = s.nextOff ∧
    getD n [] (destroyLocal off s).buffers = getD n [] s.buffers ++ [off] ∧
    (∀ m, m ≠ n → getD m [] (destroyLocal off s).buffers = getD m [] s.buffers) := by
  rw [destroyLocal_last off n s hmem hrc hsz]
  refine ⟨rfl, rfl, rfl, ?_, ?_⟩
  · show getD n [] (setKey n (getD n [] s.buffers ++ [off]) s.buffers) =
      getD n [] s.buffers ++ [off]
    exact getD_setKey_self _ _ _ _
  · intro m hm
    show getD m [] (setKey n (getD n [] s.buffers ++ [off]) s.buffers) = getD m [] s.buffers
    exact getD_setKey_ne _ _ _ hm

/-- C6: stream gating.  When the stream ID is absent from the activation table,
or present and marked active, `getBufferFromPool` returns exactly the result of
`requestSHM` (whenever the latter succeeds).  When the stream is present and
marked inactive, it returns a fresh purely local allocation, the pool state is
untouched (`requestSHM` is not called), and the returned buffer's `convert` is
empty.  `activateStream` sets exactly that per-stream bit, leaving every other
stream's entry unchanged. -/
theorem claim6_stream_gating (s : Hybrid) (id : String) (n : Nat) (b : Bool) :
    ((lookupKey id s.activatedStreams = none ∨
        lookupKey id s.activatedStreams = some true) →
      ∀ off s', requestSHM n s = (some off, s') →
        getBufferFromPool id n s = (Buf.shared off, s')) ∧
    (lookupKey id s.activatedStreams = some false →
      getBufferFromPool id n s =
        (Buf.localBuf s.localCount, { s with localCount := s.localCount + 1 }) ∧
      convertBuf (getBufferFromPool id n s).1 (getBufferFromPool id n s).2 = none) ∧
    lookupKey id (activateStream id b s).activatedStreams = some b ∧
    (∀ id', id' ≠ id →
      lookupKey id' (activateStream id b s).activatedStreams =
        lookupKey id' s.activatedStreams) := by
  refine ⟨?_, ?_, ?_, ?_⟩
  · intro hc off s' hreq
    unfold getBufferFromPool
    rw [if_pos hc, hreq]
  · intro hc
    have hnc : ¬ (lookupKey id s.activatedStreams = none ∨
        lookupKey id s.activatedStreams = some true) := by
      simp [hc]
    constructor
    · unfold getBufferFromPool
      rw [if_neg hnc]
      rfl
    · unfold getBufferFromPool
      rw [if_neg hnc]
      rfl
  · show lookupKey id (setKey id b s.activatedStreams) = some b
    exact lookupKey_setKey_self _ _ _
  · intro id' hne
    show lookupKey id' (setKey id b s.activatedStreams) = lookupKey id' s.activatedStreams
    exact lookupKey_setKey_ne _ _ hne

/-- Iterated `requestSHM`: perform the requests in order, collecting the
results. -/
def requestMany (ns : List Nat) (s : Hybrid) : List (Option Nat) × Hybrid :=
  match ns with
  | [] => ([], s)
  | n :: rest =>
      ((requestSHM n s).1 :: (requestMany rest (requestSHM n s).2).1,
       (requestMany rest (requestSHM n s).2).2)

/-- States reachable by pure allocation from a fresh segment: every free-list
is empty, `allocated` is the running total `k`, the budget cap is the integer
`C` (i.e. `shmSize * fracNum = C * fracDen`), and all bookkeeping keys are
below the allocation counter. -/
def FreshReady (k C : Nat) (s : Hybrid) : Prop :=
  (∀ p ∈ s.buffers, p.2 = []) ∧ s.allocated = k ∧
  s.shmSize * s.fracNum = C * s.fracDen ∧ 0 < s.fracDen ∧
  (∀ o ∈ s.ptrs, o < s.nextOff) ∧ (∀ p ∈ s.refcount, p.1 < s.nextOff)

theorem underBudget_iff (s : Hybrid) (n C : Nat)
    (hcap : s.shmSize * s.fracNum = C * s.fracDen) (hden : 0 < s.fracDen) :
    underBudget s n ↔ s.allocated + n < C := by
  unfold underBudget
  rw [hcap]
  exact Nat.mul_lt_mul_right hden

theorem freshReady_step (k C n : Nat) (s : Hybrid)
    (hf : FreshReady k C s) (hlt : k + n < C) :
    (requestSHM n s).1 = some s.nextOff ∧ FreshReady (k + n) C (requestSHM n s).2 := by
  obtain ⟨hemp, halloc, hcap, hden, hptrs, hrcb⟩ := hf
  have hl : (getD n [] s.buffers).getLast? = none := by
    cases hh : lookupKey n s.buffers with
    | none => rw [getD, hh]; rfl
    | some l =>
        rw [getD, hh]
        have he : l = [] := hemp _ (mem_of_lookupKey hh)
        show l.getLast? = none
        rw [he]
        rfl
  have hb : underBudget s n := by
    rw [underBudget_iff s n C hcap hden, halloc]
    exact hlt
  have hptr0 : s.nextOff ∉ s.ptrs := fun hc => lt_irrefl _ (hptrs _ hc)
  have hrc0 : getD s.nextOff 0 s.refcount = 0 := by
    rw [getD, lookupKey_eq_none fun p hp => Nat.ne_of_lt (hrcb p hp)]
    rfl
  rw [requestSHM_fresh n s hl hb hptr0 hrc0]
  refine ⟨rfl, ?_, ?_, hcap, hden, ?_, ?_⟩
  · intro p hp
    rcases mem_ensureKey hp with h' | h'
    · exact hemp _ h'
    · rw [h']
  · show s.allocated + n = k + n
    rw [halloc]
  · intro o ho
    rcases List.mem_cons.mp ho with h' | h'
    · rw [h']
      exact Nat.lt_succ_self _
    · exact Nat.lt_succ_of_lt (hptrs _ h')
  · intro p hp
    rcases mem_setKey hp with h' | h'
    · rw [h']
      exact Nat.lt_succ_self _
    · rcases mem_setKey h' with h'' | h''
      · rw [h'']
        exact Nat.lt_succ_self _
      · rcases mem_setKey h'' with h3 | h3
        · rw [h3]
          exact Nat.lt_succ_self _
        · exact Nat.lt_succ_of_lt (hrcb _ h3)

theorem requestMany_spec (C : Nat) (ns : List Nat) : ∀ (k : Nat) (s : Hybrid),
    FreshReady k C s → k + ns.sum < C →
    (∀ r ∈ (requestMany ns s).1, r.isSome) ∧
    FreshReady (k + ns.sum) C (requestMany ns s).2 := by
  induction ns with
  | nil =>
      intro k s hf _
      refine ⟨by simp [requestMany], ?_⟩
      simpa using hf
  | cons n rest ih =>
      intro k s hf hlt
      have hsum : (n :: rest).sum = n + rest.sum := List.sum_cons
      have hn : k + n < C := by omega
      obtain ⟨hr1, hf1⟩ := freshReady_step k C n s hf hn
      have hlt' : (k + n) + rest.sum < C := by omega
      obtain ⟨hall, hfr⟩ := ih (k + n) (requestSHM n s).2 hf1 hlt'
      constructor
      · intro r hr
        simp only [requestMany, List.mem_cons] at hr
        rcases hr with hr | hr
        · rw [hr, hr1]
          rfl
        · exact hall r hr
      · have heq : (requestMany (n :: rest) s).2 = (requestMany rest (requestSHM n s).2).2 :=
          rfl
        rw [heq]
        have hks : k + (n :: rest).sum = (k + n) + rest.sum := by omega
        rw [hks]
        exact hfr

/-- C2: `requestSHM` on a free-list miss allocates fresh segment memory exactly
when `allocated + n` is strictly below the budget cap
`shmSize * MAX_SHM_USAGE_FRAC`, adding `n` to `allocated` and recording the
offset in `sizes`; otherwise it returns an empty handle and leaves `allocated`,
`sizes` and the reference counts untouched.  At an integer cap `C`, a run of
allocations summing to `C - 1` from a fresh segment all succeed and the next
request of one byte fails. -/
theorem claim2_budget_boundary (s : Hybrid) (n B num den C : Nat) (ns : List Nat) :
    (getD n [] s.buffers = [] →
      (underBudget s n →
        (requestSHM n s).1 = some s.nextOff ∧
        (requestSHM n s).2.allocated = s.allocated + n ∧
        (requestSHM n s).2.nextOff = s.nextOff + 1 ∧
        lookupKey s.nextOff (requestSHM n s).2.sizes = some n) ∧
      (¬ underBudget s n →
        (requestSHM n s).1 = none ∧
        (requestSHM n s).2.allocated = s.allocated ∧
        (requestSHM n s).2.sizes = s.sizes ∧
        (requestSHM n s).2.refcount = s.refcount)) ∧
    (B * num = C * den → 0 < den → 1 ≤ C → ns.sum = C - 1 →
      (∀ r ∈ (requestMany ns (initState B num den)).1, r.isSome) ∧
      (requestMany ns (initState B num den)).2.allocated = C - 1 ∧
      (requestSHM 1 (requestMany ns (initState B num den)).2).1 = none) := by
  constructor
  · intro hempty
    have hl : (getD n [] s.buffers).getLast? = none := by
      rw [hempty]
      rfl
    constructor
    · intro hb
      have heq : requestSHM n s = finishRequest s.nextOff
          { s with buffers := ensureKey n [] s.buffers, nextOff := s.nextOff + 1,
                   allocated := s.allocated + n, sizes := (s.nextOff, n) :: s.sizes } := by
        simp only [requestSHM, hl, if_pos hb]
      rw [heq]
      obtain ⟨g1, g2, g3, g4⟩ := finishRequest_frame s.nextOff _
      refine ⟨g1, ?_, ?_, ?_⟩
      · rw [g2]
      · rw [g3]
      · rw [g4]
        show lookupKey s.nextOff ((s.nextOff, n) :: s.sizes) = some n
        simp [lookupKey]
    · intro hb
      rw [requestSHM_reject n s hl hb]
      exact ⟨rfl, rfl, rfl, rfl⟩
  · intro hcap hden hC hsum
    have hf0 : FreshReady 0 C (initState B num den) :=
      ⟨fun p hp => absurd hp (List.not_mem_nil p), rfl, hcap, hden,
       fun o ho => absurd ho (List.not_mem_nil o),
       fun p hp => absurd hp (List.not_mem_nil p)⟩
    have hlt : 0 + ns.sum < C := by omega
    obtain ⟨hall, hfr⟩ := requestMany_spec C ns 0 (initState B num den) hf0 hlt
    obtain ⟨hemp', halloc', hcap', hden', _, _⟩ := hfr
    refine ⟨hall, ?_, ?_⟩
    · rw [halloc']
      omega
    · have hl1 : (getD 1 [] (requestMany ns (initState B num den)).2.buffers).getLast?
          = none := by
        cases hh : lookupKey 1 (requestMany ns (initState B num den)).2.buffers with
        | none => rw [getD, hh]; rfl
        | some l =>
            rw [getD, hh]
            have he : l = [] := hemp' _ (mem_of_lookupKey hh)
            show l.getLast? = none
            rw [he]
            rfl
      have hnb : ¬ underBudget (requestMany ns (initState B num den)).2 1 := by
        rw [underBudget_iff _ 1 C hcap' hden', halloc']
        omega
      rw [requestSHM_reject 1 _ hl1 hnb]

/-! GPU side of the pool. -/

/-- `GpuBufferData` — `{handle, size, memoryTypeIndex}` as seen by some
process. -/
structure GpuBufferData where
  handle : Nat
  size : Nat
  memoryTypeIndex : Nat
deriving DecidableEq

/-- `GpuBufferDataWithPID` — the shared-memory record: the buffer data of the
origin process plus the PID of the process that allocated the GPU memory. -/
structure GpuBufferDataWithPID where
  data : GpuBufferData
  originPid : Nat
deriving DecidableEq

/-- The result of scanning a GPU free-list (the loop body of `findBuffer`,
source lines 205-216): walk the list front to back; at the first offset whose
shared record carries the local PID, remove exactly that entry and return it;
otherwise keep the entry and continue.  `pidOf` gives each offset's
`originPid`, i.e. `shm_->get_address_from_handle(*it)->second`. -/
def scanErase (pid : Nat) (pidOf : Nat → Nat) : List Nat → Option Nat × List Nat
  | [] => (none, [])
  | off :: rest =>
      if pidOf off = pid then (some off, rest)
      else ((scanErase pid pidOf rest).1, off :: (scanErase pid pidOf rest).2)

/-- `MemoryPoolIPCHybrid::findBuffer` (source lines 180-218): under
`buffers_mutex`, look up `buffers[n]`, emplacing an empty list when the key is
absent, then scan linearly for the first entry originating from the local
PID. -/
def findBuffer (pid : Nat) (pidOf : Nat → Nat) (n : Nat)
    (buffers : List (Nat × List Nat)) : Option Nat × List (Nat × List Nat) :=
  ((scanErase pid pidOf (getD n [] buffers)).1,
   setKey n (scanErase pid pidOf (getD n [] buffers)).2 (ensureKey n [] buffers))

theorem scanErase_some (pid : Nat) (pidOf : Nat → Nat) :
    ∀ (l : List Nat) (off : Nat), (scanErase pid pidOf l).1 = some off →
      ∃ l1 l2, l = l1 ++ off :: l2 ∧ (∀ o ∈ l1, pidOf o ≠ pid) ∧ pidOf off = pid ∧
        (scanErase pid pidOf l).2 = l1 ++ l2 := by
  intro l
  induction l with
  | nil => intro off h; simp [scanErase] at h
  | cons a rest ih =>
      intro off h
      by_cases ha : pidOf a = pid
      · simp only [scanErase, if_pos ha] at h ⊢
        injection h with h
        subst h
        exact ⟨[], rest, by simp, by simp, ha, by simp⟩
      · simp only [scanErase, if_neg ha] at h ⊢
        obtain ⟨l1, l2, hsplit, hnone, hp, hrest⟩ := ih off h
        exact ⟨a :: l1, l2, by rw [hsplit]; rfl,
          by
            intro o ho
            rcases List.mem_cons.mp ho with h' | h'
            · rw [h']; exact ha
            · exact hnone o h',
          hp, by rw [hrest]; rfl⟩

theorem scanErase_none (pid : Nat) (pidOf : Nat → Nat) :
    ∀ l : List Nat, (scanErase pid pidOf l).1 = none →
      (∀ o ∈ l, pidOf o ≠ pid) ∧ (scanErase pid pidOf l).2 = l := by
  intro l
  induction l with
  | nil => intro _; exact ⟨by simp, rfl⟩
  | cons a rest ih =>
      intro h
      by_cases ha : pidOf a = pid
      · simp [scanErase, if_pos ha] at h
      · simp only [scanErase, if_neg ha] at h ⊢
        obtain ⟨h1, h2⟩ := ih h
        refine ⟨?_, by rw [h2]⟩
        intro o ho
        rcases List.mem_cons.mp ho with h' | h'
        · rw [h']; exact ha
        · exact h1 o h'

/-- C7: `findBuffer` scans `buffers[n]` linearly (creating an empty list when
the key is absent): when it returns an offset, that offset is the first entry
of the free-list whose origin PID is the local PID, and exactly that entry has
been removed; when it returns none, no entry of `buffers[n]` has the local PID
— even if foreign-origin entries of size `n` are present — and the free-list
for `n` is unchanged (though its key now exists).  Free-lists of other sizes
are never touched. -/
theorem claim7_findBuffer_scan (pid : Nat) (pidOf : Nat → Nat) (n : Nat)
    (buffers : List (Nat × List Nat)) :
    (∀ off, (findBuffer pid pidOf n buffers).1 = some off →
      ∃ l1 l2, getD n [] buffers = l1 ++ off :: l2 ∧
        (∀ o ∈ l1, pidOf o ≠ pid) ∧ pidOf off = pid ∧
        getD n [] (findBuffer pid pidOf n buffers).2 = l1 ++ l2) ∧
    ((findBuffer pid pidOf n buffers).1 = none →
      (∀ o ∈ getD n [] buffers, pidOf o ≠ pid) ∧
      lookupKey n (findBuffer pid pidOf n buffers).2 = some (getD n [] buffers)) ∧
    (∀ m, m ≠ n →
      lookupKey m (findBuffer pid pidOf n buffers).2 = lookupKey m buffers) := by
  refine ⟨?_, ?_, ?_⟩
  · intro off h
    obtain ⟨l1, l2, hsplit, hnone, hp, hrest⟩ :=
      scanErase_some pid pidOf (getD n [] buffers) off h
    refine ⟨l1, l2, hsplit, hnone, hp, ?_⟩
    show getD n [] (setKey n (scanErase pid pidOf (getD n [] buffers)).2
        (ensureKey n [] buffers)) = l1 ++ l2
    rw [getD_setKey_self]
    exact hrest
  · intro h
    obtain ⟨h1, h2⟩ := scanErase_none pid pidOf (getD n [] buffers) h
    refine ⟨h1, ?_⟩
    show lookupKey n (setKey n (scanErase pid pidOf (getD n [] buffers)).2
        (ensureKey n [] buffers)) = some (getD n [] buffers)
    rw [lookupKey_setKey_self, h2]
  · intro m hm
    show lookupKey m (setKey n (scanErase pid pidOf (getD n [] buffers)).2
        (ensureKey n [] buffers)) = lookupKey m buffers
    rw [lookupKey_setKey_ne _ _ hm]
    unfold ensureKey
    by_cases hk : (lookupKey n buffers).isSome
    · rw [if_pos hk]
    · rw [if_neg hk]
      exact lookupKey_append_single_ne ([] : List Nat) buffers hm

/-- The per-process GPU caches of `MemoryPoolIPCHybrid`: `handlesGPU_` maps a
local handle to the shared wrapper held for it (wrappers identified by a
numeric id), `gpuHandleProcMap_` maps an origin handle to its locally
duplicated handle, and `gpuMappedBuffers_` maps a local handle to its CPU-side
mapping (mappings also identified numerically). -/
structure GpuLocal where
  handlesGPU : List (Nat × Nat)
  gpuHandleProcMap : List (Nat × Nat)
  gpuMappedBuffers : List (Nat × Nat)
deriving DecidableEq

/-- The value `(uint64_t)(-1)`: on the POSIX path `createLocal` stores the
`int` returned by `open` straight into a `uint64_t` local, so a failed `open`
(returning `-1`) becomes `2^64 - 1`. -/
def uint64NegOne : Nat := 2 ^ 64 - 1

/-- The recording tail shared by both `createLocal` paths (source lines
419-435): `gpuHandleProcMap_[handle] = newHandle`, `handlesGPU_[newHandle] =
buffer`, map the buffer into this process when not yet mapped, and return a
fresh local `GpuBufferData{newHandle, size, memoryTypeIndex}`. -/
def recordGpu (w : Nat) (p : GpuBufferDataWithPID) (newHandle : Nat) (s : GpuLocal) :
    Option GpuBufferData × GpuLocal :=
  (some ⟨newHandle, p.data.size, p.data.memoryTypeIndex⟩,
   { s with
     gpuHandleProcMap := setKey p.data.handle newHandle s.gpuHandleProcMap,
     handlesGPU := setKey newHandle w s.handlesGPU,
     gpuMappedBuffers :=
       if (lookupKey newHandle s.gpuMappedBuffers).isSome then s.gpuMappedBuffers
       else setKey newHandle newHandle s.gpuMappedBuffers })

/-- `MemoryPoolIPCHybrid::createLocal(const SharedPtrGPUIPC&)`, Windows branch
(source lines 378-436, `_WIN32` side): when the origin handle is not cached,
duplicate it via `DuplicateHandle`; on failure return an empty `GpuBuffer`
without recording anything; otherwise record.  `dupResult` is the outcome of
the `DuplicateHandle` call. -/
def createLocalGpuWin (w : Nat) (p : GpuBufferDataWithPID) (dupResult : Option Nat)
    (s : GpuLocal) : Option GpuBufferData × GpuLocal :=
  match lookupKey p.data.handle s.gpuHandleProcMap with
  | none =>
      match dupResult with
      | none => (none, s)
      | some nh => recordGpu w p nh s
  | some cached => recordGpu w p cached s

/-- `MemoryPoolIPCHybrid::createLocal(const SharedPtrGPUIPC&)`, POSIX branch
(source lines 378-436, `#else` side): when the origin handle is not cached,
`newHandle = open("/proc/<pid>/fd/<handle>", O_RDWR)` — the return value is
stored without any failure check, so a failed `open` stores
`(uint64_t)(-1)` — and recording proceeds unconditionally.  `openResult` is
`some fd` when the `open` succeeds and `none` when it fails. -/
def createLocalGpuPosix (w : Nat) (p : GpuBufferDataWithPID) (openResult : Option Nat)
    (s : GpuLocal) : Option GpuBufferData × GpuLocal :=
  match lookupKey p.data.handle s.gpuHandleProcMap with
  | none =>
      match openResult with
      | none => recordGpu w p uint64NegOne s
      | some fd => recordGpu w p fd s
  | some cached => recordGpu w p cached s

/-- `MemoryPoolIPCHybrid::destroyLocal(GpuBufferData*)` (source lines 438-441):
`handlesGPU_.erase(handlePtr->handle)`. -/
def destroyLocalGpu (handle : Nat) (s : GpuLocal) : GpuLocal :=
  { s with handlesGPU := eraseKey handle s.handlesGPU }

/-- The GPU local-cache portion of `~MemoryPoolIPCHybrid` (source lines
145-161): `handlesGPU_.clear(); gpuMappedBuffers_.clear();` and then
`vulkanUtil_->free(handle.second)` for every entry of `gpuHandleProcMap_`.
Returns the new cache state together with the list of duplicated handles
released through the graphics utility. -/
def destructorReleaseGpu (s : GpuLocal) : GpuLocal × List Nat :=
  ({ s with handlesGPU := [], gpuMappedBuffers := [] },
   s.gpuHandleProcMap.map Prod.snd)

/-- C8 (divergence witness): on the POSIX path a failed handle duplication is
not detected.  With an empty cache and `open` failing, `createLocal` on a
shared GPU wrapper returns a non-empty `GpuBuffer` whose handle is
`(uint64_t)(-1) = 2^64 - 1`, records the wrapper in `handlesGPU_` under that
handle, caches the bogus handle in `gpuHandleProcMap_`, and maps it — whereas
on the Windows path a failed `DuplicateHandle` returns an empty buffer and
records nothing, which is what the claim (and the spec's error-handling
design) prescribes for both paths. -/
theorem claim8_posix_dup_failure_recorded :
    createLocalGpuWin 7 ⟨⟨5, 4096, 2⟩, 1234⟩ none ⟨[], [], []⟩ = (none, ⟨[], [], []⟩) ∧
    (createLocalGpuPosix 7 ⟨⟨5, 4096, 2⟩, 1234⟩ none ⟨[], [], []⟩).1 =
      some ⟨uint64NegOne, 4096, 2⟩ ∧
    lookupKey uint64NegOne
      (createLocalGpuPosix 7 ⟨⟨5, 4096, 2⟩, 1234⟩ none ⟨[], [], []⟩).2.handlesGPU =
      some 7 ∧
    lookupKey 5
      (createLocalGpuPosix 7 ⟨⟨5, 4096, 2⟩, 1234⟩ none ⟨[], [], []⟩).2.gpuHandleProcMap =
      some uint64NegOne := by
  refine ⟨rfl, rfl, ?_, ?_⟩ <;> simp [createLocalGpuPosix, recordGpu, lookupKey,
    lookupKey_setKey_self]

/-- C9: destroying the last local `GpuBuffer` handle removes only the
`handlesGPU_` entry for its handle — `gpuMappedBuffers_` and
`gpuHandleProcMap_` are untouched by every drop, and entries under other
handles survive — while the pool's destructor clears both local caches and
releases exactly the duplicated handles of `gpuHandleProcMap_` through the
graphics utility. -/
theorem claim9_gpu_drop_frame (handle : Nat) (s : GpuLocal) :
    (destroyLocalGpu handle s).gpuMappedBuffers = s.gpuMappedBuffers ∧
    (destroyLocalGpu handle s).gpuHandleProcMap = s.gpuHandleProcMap ∧
    (destroyLocalGpu handle s).handlesGPU = eraseKey handle s.handlesGPU ∧
    ((s.handlesGPU.map Prod.fst).Nodup →
      lookupKey handle (destroyLocalGpu handle s).handlesGPU = none) ∧
    (∀ h', h' ≠ handle →
      lookupKey h' (destroyLocalGpu handle s).handlesGPU = lookupKey h' s.handlesGPU) ∧
    (destructorReleaseGpu s).1.handlesGPU = [] ∧
    (destructorReleaseGpu s).1.gpuMappedBuffers = [] ∧
    (destructorReleaseGpu s).2 = s.gpuHandleProcMap.map Prod.snd := by
  refine ⟨rfl, rfl, rfl, ?_, ?_, rfl, rfl, rfl⟩
  · intro hnd
    exact lookupKey_eraseKey_self handle s.handlesGPU hnd
  · intro h' hne
    exact lookupKey_eraseKey_ne s.handlesGPU hne

/-! Concrete witnesses. -/

theorem claim2_budget_boundary_witness :
    (requestSHM 3 (initState 10 1 1)).1 = some 0 ∧
    (requestSHM 3 (initState 10 1 1)).2.allocated = 3 ∧
    (∀ r ∈ (requestMany [5, 4] (initState 10 1 1)).1, r.isSome) ∧
    (requestSHM 1 (requestMany [5, 4] (initState 10 1 1)).2).1 = none :=
  ⟨(((claim2_budget_boundary (initState 10 1 1) 3 10 1 1 10 [5, 4]).1
      (by decide)).1 (by decide)).1,
   (((claim2_budget_boundary (initState 10 1 1) 3 10 1 1 10 [5, 4]).1
      (by decide)).1 (by decide)).2.1,
   ((claim2_budget_boundary (initState 10 1 1) 3 10 1 1 10 [5, 4]).2
      (by decide) (by decide) (by decide) (by decide)).1,
   ((claim2_budget_boundary (initState 10 1 1) 3 10 1 1 10 [5, 4]).2
      (by decide) (by decide) (by decide) (by decide)).2.2⟩

theorem claim3_single_handle_drop_witness :
    (destroyLocal 0 ((requestSHM 4096 (initState 10000 9 10)).2)).ptrs =
      removeOne 0 ((requestSHM 4096 (initState 10000 9 10)).2).ptrs ∧
    0 ∉ (destroyLocal 0 ((requestSHM 4096 (initState 10000 9 10)).2)).ptrs ∧
    getD 0 0 (destroyLocal 0 ((requestSHM 4096 (initState 10000 9 10)).2)).refcount = 0 ∧
    getD 4096 [] (destroyLocal 0 ((requestSHM 4096 (initState 10000 9 10)).2)).buffers =
      getD 4096 [] ((requestSHM 4096 (initState 10000 9 10)).2).buffers ++ [0] ∧
    destroyLocal 0 (destroyLocal 0 ((requestSHM 4096 (initState 10000 9 10)).2)) =
      destroyLocal 0 ((requestSHM 4096 (initState 10000 9 10)).2) :=
  claim3_single_handle_drop ((requestSHM 4096 (initState 10000 9 10)).2) 0 4096
    (by decide) (by decide) (by decide) (by decide)

theorem claim4_lifo_recycle_witness :
    (requestSHM 1024
      (destroyLocal 0 ((requestSHM 1024 (initState 1048576 9 10)).2))).1 = some 0 ∧
    (requestSHM 1024
        (destroyLocal 0 ((requestSHM 1024 (initState 1048576 9 10)).2))).2.allocated =
      ((requestSHM 1024 (initState 1048576 9 10)).2).allocated ∧
    (requestSHM 1024
        (destroyLocal 0 ((requestSHM 1024 (initState 1048576 9 10)).2))).2.nextOff =
      ((requestSHM 1024 (initState 1048576 9 10)).2).nextOff :=
  have h := claim4_lifo_recycle (initState 1048576 9 10) 1024 0
    ((requestSHM 1024 (initState 1048576 9 10)).2) (by decide) (by decide)
  ⟨h.1, h.2.1, h.2.2.1⟩

theorem claim5_drop_frame_witness :
    (destroyLocal 0
        ((requestSHM 4096 ((requestSHM 4096 (initState 1048576 9 10)).2)).2)).allocated =
      8192 ∧
    (destroyLocal 1 (destroyLocal 0
        ((requestSHM 4096 ((requestSHM 4096 (initState 1048576 9 10)).2)).2))).allocated =
      (destroyLocal 0
        ((requestSHM 4096 ((requestSHM 4096 (initState 1048576 9 10)).2)).2)).allocated ∧
    (destroyLocal 1 (destroyLocal 0
        ((requestSHM 4096 ((requestSHM 4096 (initState 1048576 9 10)).2)).2))).sizes =
      (destroyLocal 0
        ((requestSHM 4096 ((requestSHM 4096 (initState 1048576 9 10)).2)).2)).sizes ∧
    getD 4096 [] (destroyLocal 1 (destroyLocal 0
        ((requestSHM 4096 ((requestSHM 4096 (initState 1048576 9 10)).2)).2))).buffers =
      [0, 1] :=
  ⟨by decide,
   (claim5_drop_frame
      (destroyLocal 0 ((requestSHM 4096 ((requestSHM 4096 (initState 1048576 9 10)).2)).2))
      1 4096 (by decide) (by decide) (by decide)).1,
   (claim5_drop_frame
      (destroyLocal 0 ((requestSHM 4096 ((requestSHM 4096 (initState 1048576 9 10)).2)).2))
      1 4096 (by decide) (by decide) (by decide)).2.1,
   by decide⟩

theorem claim6_stream_gating_witness :
    getBufferFromPool "A" 256
        { initState 100 1 1 with activatedStreams := [("A", false)] } =
      (Buf.localBuf 0,
       { initState 100 1 1 with activatedStreams := [("A", false)], localCount := 1 }) ∧
    convertBuf
        (getBufferFromPool "A" 256
          { initState 100 1 1 with activatedStreams := [("A", false)] }).1
        (getBufferFromPool "A" 256
          { initState 100 1 1 with activatedStreams := [("A", false)] }).2 = none ∧
    getBufferFromPool "A" 16
        { initState 100 1 1 with activatedStreams := [("A", true)] } =
      (Buf.shared 0,
       (requestSHM 16 { initState 100 1 1 with activatedStreams := [("A", true)] }).2) ∧
    lookupKey "A" (activateStream "A" true (initState 100 1 1)).activatedStreams =
      some true :=
  ⟨((claim6_stream_gating { initState 100 1 1 with activatedStreams := [("A", false)] }
      "A" 256 true).2.1 (by decide)).1,
   ((claim6_stream_gating { initState 100 1 1 with activatedStreams := [("A", false)] }
      "A" 256 true).2.1 (by decide)).2,
   (claim6_stream_gating { initState 100 1 1 with activatedStreams := [("A", true)] }
      "A" 16 true).1 (by decide) 0
     (requestSHM 16 { initState 100 1 1 with activatedStreams := [("A", true)] }).2
     (by decide),
   (claim6_stream_gating (initState 100 1 1) "A" 16 true).2.2.1⟩

theorem claim7_findBuffer_scan_witness :
    lookupKey 8
        (findBuffer 5 (fun o => if o = 4 then 5 else 7) 8 [(8, [1, 3])]).2 =
      some [1, 3] ∧
    lookupKey 9
        (findBuffer 5 (fun o => if o = 4 then 5 else 7) 8 [(8, [1, 3])]).2 =
      lookupKey 9 [(8, [1, 3])] :=
  ⟨((claim7_findBuffer_scan 5 (fun o => if o = 4 then 5 else 7) 8 [(8, [1, 3])]).2.1
      (by decide)).2,
   (claim7_findBuffer_scan 5 (fun o => if o = 4 then 5 else 7) 8 [(8, [1, 3])]).2.2 9
     (by decide)⟩

theorem claim9_gpu_drop_frame_witness :
    (destroyLocalGpu 5 ⟨[(5, 7), (6, 8)], [(2, 5)], [(5, 5)]⟩).gpuMappedBuffers =
      [(5, 5)] ∧
    (destroyLocalGpu 5 ⟨[(5, 7), (6, 8)], [(2, 5)], [(5, 5)]⟩).gpuHandleProcMap =
      [(2, 5)] ∧
    lookupKey 5 (destroyLocalGpu 5 ⟨[(5, 7), (6, 8)], [(2, 5)], [(5, 5)]⟩).handlesGPU =
      none ∧
    lookupKey 6 (destroyLocalGpu 5 ⟨[(5, 7), (6, 8)], [(2, 5)], [(5, 5)]⟩).handlesGPU =
      some 8 :=
  have h := claim9_gpu_drop_frame 5 ⟨[(5, 7), (6, 8)], [(2, 5)], [(5, 5)]⟩
  ⟨h.1, h.2.1, h.2.2.2.1 (by decide), h.2.2.2.2.1 6 (by decide)⟩

theorem claim10_direct_no_local_entry_witness :
    (getBufferFromSharedPoolDirect 64 (initState 1000 1 1)).1 = some 0 ∧
    (convert 0 (getBufferFromSharedPoolDirect 64 (initState 1000 1 1)).2).1 = none ∧
    getD 0 0 (getBufferFromSharedPoolDirect 64 (initState 1000 1 1)).2.refcount = 1 ∧
    (getBufferFromSharedPoolDirect 64 (initState 1000 1 1)).2.ptrs = [] :=
  have h := claim10_direct_no_local_entry 64 0 (initState 1000 1 1)
    (getBufferFromSharedPoolDirect 64 (initState 1000 1 1)).2 (by decide) (by decide)
  ⟨by decide, h.2.1, h.2.2.1, by decide⟩

end Cthulhu
